import Mathlib

/-
Verification of the data-aggregation layer of the bike-sharing dashboard
(src/dashboard/dashboard.py) against its natural-language specification.

The embedding below mirrors the pandas operations of the script:
tables are lists of row records, dates are absolute day numbers
(days since 1970-01-01, an Int), the float-valued columns are modelled
by exact rationals, and the float NaN produced by degenerate reductions
is modelled by Option (none = NaN) or, inside plain rational arithmetic,
by the junk value 0 that division by zero yields in Lean.
-/

namespace Dashboard

/-- One of the four hour-of-day categories produced by the binning at
dashboard.py line 189 (labels Night, Morning, Afternoon, Evening). -/
inductive HourBin where
  | night
  | morning
  | afternoon
  | evening
deriving DecidableEq

/-- A row of the daily table (days_data.csv): calendar date (absolute day
number), season, weather category (1 Clear, 2 Misty, 3 Light Snow/Rain),
the numeric weather measurements, and the casual / registered / total
rental counts.  The month field models the derived month column added by
dashboard.py line 73: it is none until that column is added. -/
structure DayRow where
  dteday : Int
  season : Nat
  weathersit : Nat
  temp : ℚ
  hum : ℚ
  windspeed : ℚ
  casual : Nat
  registered : Nat
  cnt : Nat
  month : Option (Int × Nat) := none
deriving DecidableEq

/-- A row of the hourly table (hours_data.csv), with the hour-of-day field
hr (0..23) and the workingday flag (0 weekend/holiday, 1 weekday).  The
hourBinned field models the derived hour_binned column added by
dashboard.py line 189: none while the column is absent, and some b once
pd.cut has produced the value b (itself an Option, since pd.cut yields
NaN outside every bin). -/
structure HourRow where
  dteday : Int
  hr : Nat
  workingday : Nat
  weathersit : Nat
  casual : Nat
  registered : Nat
  cnt : Nat
  hourBinned : Option (Option HourBin) := none
deriving DecidableEq

/-- Date-range filter for the daily table, dashboard.py line 36:
days_data[(days_data.dteday >= start) & (days_data.dteday <= end)]. -/
def filterDays (t : List DayRow) (startD endD : Int) : List DayRow :=
  t.filter (fun r => decide (startD ≤ r.dteday ∧ r.dteday ≤ endD))

/-- Date-range filter for the hourly table, dashboard.py line 37. -/
def filterHours (t : List HourRow) (startD endD : Int) : List HourRow :=
  t.filter (fun r => decide (startD ≤ r.dteday ∧ r.dteday ≤ endD))

/-- Hour binning of dashboard.py lines 187-189:
pd.cut(hr, bins = [0, 6, 12, 18, 24], labels = [Night, Morning, Afternoon,
Evening], include_lowest = True).  pd.cut uses right-closed intervals and
include_lowest additionally closes the lowest bound, so the bins are
[0, 6], (6, 12], (12, 18], (18, 24]; a value outside every bin becomes
NaN (none). -/
def hour_binned (h : Nat) : Option HourBin :=
  if h ≤ 6 then some HourBin.night
  else if h ≤ 12 then some HourBin.morning
  else if h ≤ 18 then some HourBin.afternoon
  else if h ≤ 24 then some HourBin.evening
  else none

/-- A concrete daily row used to instantiate the universally quantified
theorems below on a closed input. -/
def sampleDay : DayRow :=
  { dteday := 10, season := 1, weathersit := 1, temp := 8/10, hum := 1/2,
    windspeed := 1/4, casual := 3, registered := 4, cnt := 7 }

/-- A second concrete daily row, with a different date and weather. -/
def sampleDay2 : DayRow :=
  { dteday := 11, season := 1, weathersit := 2, temp := 2/10, hum := 3/4,
    windspeed := 1/8, casual := 5, registered := 6, cnt := 11 }

/-- A concrete hourly row. -/
def sampleHour : HourRow :=
  { dteday := 10, hr := 5, workingday := 1, weathersit := 1, casual := 2,
    registered := 8, cnt := 10 }

/-- C1 (counterexample): the claimed lowest-inclusive binning fails at
hour 6.  The claim assigns h to Morning exactly when 6 <= h < 12, but the
code's pd.cut with right-closed intervals puts hour 6 into Night. -/
theorem hour_binned_six_refutes_claim :
    ¬ ((hour_binned 6 = some HourBin.morning) ↔ (6 ≤ 6 ∧ 6 < 12)) := by
  decide

/-- C1 (amended): the hour bins are right-closed with the lowest bound
included: for every hour h in [0, 23], h is assigned to Night iff
0 <= h <= 6, Morning iff 7 <= h <= 12, Afternoon iff 13 <= h <= 18, and
Evening iff 19 <= h <= 23. -/
theorem hour_binned_right_closed (h : Fin 24) :
    (hour_binned h.val = some HourBin.night ↔ h.val ≤ 6) ∧
    (hour_binned h.val = some HourBin.morning ↔ 7 ≤ h.val ∧ h.val ≤ 12) ∧
    (hour_binned h.val = some HourBin.afternoon ↔ 13 ≤ h.val ∧ h.val ≤ 18) ∧
    (hour_binned h.val = some HourBin.evening ↔ 19 ≤ h.val ∧ h.val ≤ 23) := by
  revert h
  decide

/-- C3: the date-range filter keeps exactly the rows whose date lies in the
inclusive range [start, end], on both tables; filtering with start = end
keeps exactly the rows of that single date; and an inverted range yields
the empty table rather than an error. -/
theorem filter_range_spec :
    (∀ (t : List DayRow) (s e : Int) (r : DayRow),
        r ∈ filterDays t s e ↔ r ∈ t ∧ s ≤ r.dteday ∧ r.dteday ≤ e) ∧
    (∀ (t : List HourRow) (s e : Int) (r : HourRow),
        r ∈ filterHours t s e ↔ r ∈ t ∧ s ≤ r.dteday ∧ r.dteday ≤ e) ∧
    (∀ (t : List DayRow) (d : Int) (r : DayRow),
        r ∈ filterDays t d d ↔ r ∈ t ∧ r.dteday = d) ∧
    (∀ (t : List DayRow) (s e : Int), e < s → filterDays t s e = []) := by
  refine ⟨?_, ?_, ?_, ?_⟩
  · intro t s e r
    simp [filterDays, List.mem_filter]
  · intro t s e r
    simp [filterHours, List.mem_filter]
  · intro t d r
    simp only [filterDays, List.mem_filter, decide_eq_true_eq]
    constructor
    · rintro ⟨hm, h1, h2⟩
      exact ⟨hm, le_antisymm h2 h1⟩
    · rintro ⟨hm, h⟩
      exact ⟨hm, le_of_eq h.symm, le_of_eq h⟩
  · intro t s e h
    unfold filterDays
    rw [List.filter_eq_nil_iff]
    intro r _
    simp only [decide_eq_true_eq]
    rintro ⟨h1, h2⟩
    exact absurd (le_trans h1 h2) (not_le.mpr h)

/-- C3 (witness): on a concrete one-row table an inverted range filters to
the empty table. -/
theorem filter_range_spec_witness : filterDays [sampleDay] 25 5 = [] :=
  filter_range_spec.2.2.2 [sampleDay] 25 5 (by decide)

/-- Sum of a value field over the rows of l whose grouping key equals k:
the per-group reduction behind a pandas groupby(...).sum(). -/
def groupSum {R K M : Type} [DecidableEq K] [AddCommMonoid M]
    (key : R → K) (val : R → M) (l : List R) (k : K) : M :=
  ((l.filter (fun r => decide (key r = k))).map val).sum

/-- Group-by-and-sum: one entry per distinct key of l carrying the sum of
the value field over that key's rows.  pandas sorts the group keys; every
property checked below is about the key set or the sums themselves, so
entries are listed in order of first occurrence of each key instead. -/
def groupBy {R K M : Type} [DecidableEq K] [AddCommMonoid M]
    (key : R → K) (val : R → M) (l : List R) : List (K × M) :=
  ((l.map key).dedup).map (fun k => (k, groupSum key val l k))

theorem groupSum_cons {R K M : Type} [DecidableEq K] [AddCommMonoid M]
    (key : R → K) (val : R → M) (r : R) (l : List R) (k : K) :
    groupSum key val (r :: l) k
      = (if key r = k then val r else 0) + groupSum key val l k := by
  by_cases h : key r = k <;> simp [groupSum, List.filter_cons, h]

theorem sum_map_ite_of_not_mem {K M : Type} [DecidableEq K] [AddCommMonoid M]
    (a : K) (v : M) (D : List K) (h : a ∉ D) :
    (D.map (fun k => if a = k then v else 0)).sum = 0 := by
  induction D with
  | nil => rfl
  | cons d D ih =>
    simp only [List.mem_cons, not_or] at h
    simp [if_neg h.1, ih h.2]

theorem sum_map_ite_of_nodup {K M : Type} [DecidableEq K] [AddCommMonoid M]
    (a : K) (v : M) (D : List K) (hn : D.Nodup) (ha : a ∈ D) :
    (D.map (fun k => if a = k then v else 0)).sum = v := by
  induction D with
  | nil => cases ha
  | cons d D ih =>
    rcases List.mem_cons.mp ha with h | h
    · subst h
      rw [List.map_cons, List.sum_cons, if_pos rfl,
        sum_map_ite_of_not_mem a v D (List.nodup_cons.mp hn).1, add_zero]
    · have hd : a ≠ d := by
        rintro rfl
        exact (List.nodup_cons.mp hn).1 h
      rw [List.map_cons, List.sum_cons, if_neg hd,
        ih (List.nodup_cons.mp hn).2 h, zero_add]

/-- Partition property of group-by-and-sum: the group sums over the
distinct keys of a list add up to the sum of the value field over the
whole list. -/
theorem sum_groupSum_dedup {R K M : Type} [DecidableEq K] [AddCommMonoid M]
    (key : R → K) (val : R → M) (l : List R) :
    (((l.map key).dedup).map (groupSum key val l)).sum = (l.map val).sum := by
  induction l with
  | nil => rfl
  | cons r l ih =>
    by_cases hmem : key r ∈ l.map key
    · rw [List.map_cons, List.dedup_cons_of_mem hmem]
      have h1 : ((l.map key).dedup.map (groupSum key val (r :: l))).sum
          = ((l.map key).dedup.map
              (fun k => (if key r = k then val r else 0)
                + groupSum key val l k)).sum :=
        congrArg List.sum
          (List.map_congr_left (fun k _ => groupSum_cons key val r l k))
      rw [h1, List.sum_map_add, ih,
        sum_map_ite_of_nodup (key r) (val r) _ (List.nodup_dedup _)
          (List.mem_dedup.mpr hmem),
        List.map_cons, List.sum_cons]
    · rw [List.map_cons, List.dedup_cons_of_not_mem hmem, List.map_cons,
        List.sum_cons, List.map_cons, List.sum_cons]
      have h0 : groupSum key val l (key r) = 0 := by
        unfold groupSum
        rw [List.filter_eq_nil_iff.mpr]
        · rfl
        · intro a ha
          simp only [decide_eq_true_eq]
          exact fun hk => hmem (hk ▸ List.mem_map_of_mem key ha)
      have h2 : ((l.map key).dedup.map (groupSum key val (r :: l))).sum
          = ((l.map key).dedup.map (groupSum key val l)).sum := by
        refine congrArg List.sum (List.map_congr_left ?_)
        intro k hk
        rw [groupSum_cons, if_neg, zero_add]
        intro he
        exact hmem (he ▸ List.mem_dedup.mp hk)
      rw [h2, ih, groupSum_cons, if_pos rfl, h0, add_zero]

/-- Conversion from an absolute day number (days since 1970-01-01) to the
calendar (year, month, day), by the standard civil-from-days algorithm;
it backs the to_period month key of dashboard.py line 73. -/
def civilFromDays (z0 : Int) : Int × Nat × Nat :=
  let z := z0 + 719468
  let era := (if 0 ≤ z then z else z - 146096) / 146097
  let doe := z - era * 146097
  let yoe := (doe - doe / 1460 + doe / 36524 - doe / 146096) / 365
  let y := yoe + era * 400
  let doy := doe - (365 * yoe + yoe / 4 - yoe / 100)
  let mp := (5 * doy + 2) / 153
  let d := doy - (153 * mp + 2) / 5 + 1
  let m := if mp < 10 then mp + 3 else mp - 9
  (if m ≤ 2 then y + 1 else y, m.toNat, d.toNat)

/-- Month grouping key: the (year, month) period of a date, as produced by
dteday.dt.to_period at dashboard.py line 73. -/
def monthKey (d : Int) : Int × Nat :=
  ((civilFromDays d).1, (civilFromDays d).2.1)

/-- Addition of the derived month column, dashboard.py line 73. -/
def addMonth (t : List DayRow) : List DayRow :=
  t.map (fun r => { r with month := some (monthKey r.dteday) })

/-- Addition of the derived hour_binned column, dashboard.py line 189. -/
def addHourBinned (t : List HourRow) : List HourRow :=
  t.map (fun r => { r with hourBinned := some (hour_binned r.hr) })

/-- Grand total of rentals over a table, dashboard.py line 52. -/
def total_rentals (t : List DayRow) : Nat := (t.map (fun r => r.cnt)).sum

/-- Total casual rentals, dashboard.py line 53. -/
def total_casual (t : List DayRow) : Nat := (t.map (fun r => r.casual)).sum

/-- Total registered rentals, dashboard.py line 54. -/
def total_registered (t : List DayRow) : Nat :=
  (t.map (fun r => r.registered)).sum

/-- Monthly rental totals, dashboard.py lines 73-74: add the derived month
column, then group by it and sum cnt. -/
def rentals_by_month (t : List DayRow) : List (Option (Int × Nat) × Nat) :=
  groupBy (fun r => r.month) (fun r => r.cnt) (addMonth t)

/-- C4: the monthly totals summed across all month groups equal the grand
total of cnt over the table: the (year, month) groups partition the rows
and summation is preserved. -/
theorem rentals_by_month_total (t : List DayRow) :
    ((rentals_by_month t).map Prod.snd).sum = total_rentals t := by
  have h := sum_groupSum_dedup (fun r : DayRow => r.month)
    (fun r : DayRow => r.cnt) (addMonth t)
  simpa [rentals_by_month, groupBy, total_rentals, addMonth, List.map_map,
    Function.comp] using h

/-- Weekday of an absolute day number, 0 = Monday .. 6 = Sunday
(day 0 = 1970-01-01 was a Thursday). -/
def weekday (d : Int) : Int := (d + 3) % 7

/-- Week label under pandas resample(W): the Sunday on or after d, the
right-closed end of the Monday-to-Sunday week containing d. -/
def weekLabel (d : Int) : Int := d + (6 - weekday d)

theorem weekLabel_mod (d : Int) : weekLabel d % 7 = 3 := by
  unfold weekLabel weekday
  omega

/-- The list of week labels emitted by resample(W) between a first and a
last label: one label every 7 days, inclusive on both ends. -/
def weekRange (lo hi : Int) : List Int :=
  (List.range (((hi - lo) / 7).toNat + 1)).map
    (fun (i : Nat) => lo + 7 * (i : Int))

/-- Weekly rental totals, dashboard.py lines 86-87: set_index(dteday)
followed by resample(W).sum() on cnt.  resample(W) buckets dates into
right-closed Monday-to-Sunday weeks labelled by their Sunday and emits one
row per week from the first label to the last, zero-filling empty weeks. -/
def rentals_by_week (t : List DayRow) : List (Int × Nat) :=
  match t.map (fun r => weekLabel r.dteday) with
  | [] => []
  | x :: xs =>
      (weekRange (xs.foldl min x) (xs.foldl max x)).map
        (fun w => (w, groupSum (fun r => weekLabel r.dteday)
          (fun r => r.cnt) t w))

theorem foldl_min_le_init (xs : List Int) (z : Int) : xs.foldl min z ≤ z := by
  induction xs generalizing z with
  | nil => exact le_refl z
  | cons a as ih => exact le_trans (ih (min z a)) (min_le_left z a)

theorem foldl_min_le {xs : List Int} {x y : Int} (h : y ∈ x :: xs) :
    xs.foldl min x ≤ y := by
  induction xs generalizing x with
  | nil =>
    rcases List.mem_cons.mp h with rfl | h'
    · exact le_refl y
    · cases h'
  | cons a as ih =>
    rcases List.mem_cons.mp h with rfl | h'
    · exact le_trans (foldl_min_le_init as (min y a)) (min_le_left y a)
    · rcases List.mem_cons.mp h' with rfl | h''
      · exact le_trans (foldl_min_le_init as (min x y)) (min_le_right x y)
      · exact ih (List.mem_cons_of_mem _ h'')

theorem init_le_foldl_max (xs : List Int) (z : Int) : z ≤ xs.foldl max z := by
  induction xs generalizing z with
  | nil => exact le_refl z
  | cons a as ih => exact le_trans (le_max_left z a) (ih (max z a))

theorem le_foldl_max {xs : List Int} {x y : Int} (h : y ∈ x :: xs) :
    y ≤ xs.foldl max x := by
  induction xs generalizing x with
  | nil =>
    rcases List.mem_cons.mp h with rfl | h'
    · exact le_refl y
    · cases h'
  | cons a as ih =>
    rcases List.mem_cons.mp h with rfl | h'
    · exact le_trans (le_max_left y a) (init_le_foldl_max as (max y a))
    · rcases List.mem_cons.mp h' with rfl | h''
      · exact le_trans (le_max_right x y) (init_le_foldl_max as (max x y))
      · exact ih (List.mem_cons_of_mem _ h'')

theorem foldl_min_mem (xs : List Int) (x : Int) :
    xs.foldl min x ∈ x :: xs := by
  induction xs generalizing x with
  | nil => exact List.mem_singleton.mpr rfl
  | cons a as ih =>
    rw [List.foldl_cons]
    rcases List.mem_cons.mp (ih (min x a)) with h | h
    · rcases min_choice x a with h2 | h2
      · exact List.mem_cons.mpr (Or.inl (h.trans h2))
      · exact List.mem_cons_of_mem _ (List.mem_cons.mpr (Or.inl (h.trans h2)))
    · exact List.mem_cons_of_mem _ (List.mem_cons_of_mem _ h)

theorem mem_weekRange {lo hi w : Int} (h1 : lo ≤ w) (h2 : w ≤ hi)
    (h3 : (7 : Int) ∣ (w - lo)) : w ∈ weekRange lo hi := by
  unfold weekRange
  have hd : (w - lo) / 7 ≤ (hi - lo) / 7 :=
    Int.ediv_le_ediv (by norm_num) (by omega)
  have hmem : ((w - lo) / 7).toNat
      ∈ List.range (((hi - lo) / 7).toNat + 1) := List.mem_range.mpr (by omega)
  have h4 : 7 * ((w - lo) / 7) = w - lo := Int.mul_ediv_cancel' h3
  have hval : lo + 7 * ((((w - lo) / 7).toNat : Nat) : Int) = w := by omega
  exact List.mem_map.mpr ⟨((w - lo) / 7).toNat, hmem, hval⟩

/-- C2: weekly resampling places each row's cnt in the Monday-aligned
7-day bucket containing its date: for every row of the table there is a
Monday with monday <= date < monday + 7, and the resampled result has an
entry labelled by that week's Sunday (monday + 6) whose total is the sum
of cnt over exactly the rows of that Monday-aligned window. -/
theorem rentals_by_week_bucket (t : List DayRow) (r : DayRow)
    (hm : r ∈ t) :
    ∃ monday : Int,
      weekday monday = 0 ∧ monday ≤ r.dteday ∧ r.dteday < monday + 7 ∧
      (monday + 6,
        ((t.filter (fun x =>
            decide (monday ≤ x.dteday ∧ x.dteday < monday + 7))).map
          (fun x => x.cnt)).sum) ∈ rentals_by_week t := by
  refine ⟨r.dteday - weekday r.dteday, ?_, ?_, ?_, ?_⟩
  · unfold weekday
    omega
  · unfold weekday
    omega
  · unfold weekday
    omega
  · have hLM : r.dteday - weekday r.dteday + 6 = weekLabel r.dteday := by
      unfold weekLabel weekday
      omega
    have hfilter : t.filter (fun x =>
          decide (r.dteday - weekday r.dteday ≤ x.dteday ∧
            x.dteday < r.dteday - weekday r.dteday + 7))
        = t.filter (fun x => decide (weekLabel x.dteday
            = weekLabel r.dteday)) := by
      apply List.filter_congr
      intro x _
      rw [decide_eq_decide]
      unfold weekLabel weekday
      omega
    rw [hLM, hfilter]
    cases ht : t.map (fun r => weekLabel r.dteday) with
    | nil =>
      rw [List.map_eq_nil_iff] at ht
      subst ht
      cases hm
    | cons x xs =>
      have hm2 : weekLabel r.dteday ∈ x :: xs :=
        ht ▸ List.mem_map_of_mem (fun r => weekLabel r.dteday) hm
      unfold rentals_by_week
      rw [ht]
      refine List.mem_map.mpr ⟨weekLabel r.dteday, ?_, ?_⟩
      · refine mem_weekRange (foldl_min_le hm2) (le_foldl_max hm2) ?_
        have hlo : xs.foldl min x ∈ t.map (fun r => weekLabel r.dteday) :=
          ht ▸ foldl_min_mem xs x
        rcases List.mem_map.mp hlo with ⟨d, _, hd⟩
        have h1 := weekLabel_mod d.dteday
        have h2 := weekLabel_mod r.dteday
        rw [hd] at h1
        omega
      · rfl

/-- C2 (witness): the bucket property instantiated on a concrete one-row
table. -/
theorem rentals_by_week_bucket_witness :
    ∃ monday : Int,
      weekday monday = 0 ∧ monday ≤ sampleDay.dteday ∧
      sampleDay.dteday < monday + 7 ∧
      (monday + 6,
        (([sampleDay].filter (fun x =>
            decide (monday ≤ x.dteday ∧ x.dteday < monday + 7))).map
          (fun x => x.cnt)).sum) ∈ rentals_by_week [sampleDay] :=
  rentals_by_week_bucket [sampleDay] sampleDay (List.mem_singleton.mpr rfl)

/-- Mean of a list of rationals; on the empty list the division by zero
yields the junk value 0, standing for the float NaN that pandas produces
there. -/
def meanQ (xs : List ℚ) : ℚ := xs.sum / (xs.length : ℚ)

/-- Average rentals per hour, dashboard.py line 99: groupby(hr) over cnt
followed by mean(), one entry per distinct hour value. -/
def average_rentals_by_hour (t : List HourRow) : List (Nat × ℚ) :=
  ((t.map (fun r => r.hr)).dedup).map
    (fun k => (k, meanQ ((t.filter (fun r => decide (r.hr = k))).map
      (fun r => (r.cnt : ℚ)))))

/-- Weather condition percentage breakdown, dashboard.py line 110:
value_counts(normalize = True) * 100 on the weathersit column: one entry
per weather category occurring in the table, carrying the category's
share of the rows as a percentage.  value_counts orders entries by
descending count; the properties checked below are order-independent, so
entries are in order of first occurrence of each category. -/
def weather_breakdown (t : List DayRow) : List (Nat × ℚ) :=
  ((t.map (fun r => r.weathersit)).dedup).map
    (fun k => (k,
      ((t.filter (fun r => decide (r.weathersit = k))).length : ℚ)
        / (t.length : ℚ) * 100))

/-- C7: every reduction mode applied to the empty table returns the empty
result mapping rather than raising an error: monthly and weekly sums,
hourly means, and the weather percentage breakdown. -/
theorem reductions_on_empty :
    rentals_by_month [] = [] ∧ rentals_by_week [] = [] ∧
    average_rentals_by_hour [] = [] ∧ weather_breakdown [] = [] :=
  ⟨rfl, rfl, rfl, rfl⟩

theorem sum_map_one {R : Type} (l : List R) :
    (l.map (fun _ => (1 : ℚ))).sum = (l.length : ℚ) := by
  induction l with
  | nil => simp
  | cons r l ih =>
    simp only [List.map_cons, List.sum_cons, List.length_cons, ih]
    push_cast
    ring

/-- C5: over any nonempty table the weather percentages sum to exactly
100 (the aggregate itself does no rounding). -/
theorem weather_breakdown_sums_to_100 (t : List DayRow) (h : t ≠ []) :
    ((weather_breakdown t).map Prod.snd).sum = 100 := by
  have hn : (t.length : ℚ) ≠ 0 := by
    simpa using fun h0 => h (List.length_eq_zero.mp h0)
  have hpart := sum_groupSum_dedup (fun r : DayRow => r.weathersit)
    (fun _ : DayRow => (1 : ℚ)) t
  have hsum : (((t.map (fun r => r.weathersit)).dedup).map
      (fun k => ((t.filter (fun r => decide (r.weathersit = k))).length
        : ℚ))).sum = (t.length : ℚ) := by
    calc (((t.map (fun r => r.weathersit)).dedup).map
        (fun k => ((t.filter (fun r => decide (r.weathersit = k))).length
          : ℚ))).sum
        = (((t.map (fun r => r.weathersit)).dedup).map
            (groupSum (fun r => r.weathersit)
              (fun _ => (1 : ℚ)) t)).sum :=
          congrArg List.sum
            (List.map_congr_left (fun k _ => (sum_map_one _).symm))
      _ = (t.map (fun _ => (1 : ℚ))).sum := hpart
      _ = (t.length : ℚ) := sum_map_one t
  unfold weather_breakdown
  rw [List.map_map]
  have h2 : ∀ k ∈ (t.map (fun r => r.weathersit)).dedup,
      (Prod.snd ∘ fun k => (k,
        ((t.filter (fun r => decide (r.weathersit = k))).length : ℚ)
          / (t.length : ℚ) * 100)) k
      = ((t.filter (fun r => decide (r.weathersit = k))).length : ℚ)
          * (100 / (t.length : ℚ)) := by
    intro k _
    simp only [Function.comp]
    ring
  rw [List.map_congr_left h2, List.sum_map_mul_right, hsum]
  field_simp

/-- C5 (witness): the percentages on a concrete two-row table sum to
100. -/
theorem weather_breakdown_sums_to_100_witness :
    ((weather_breakdown [sampleDay, sampleDay2]).map Prod.snd).sum = 100 :=
  weather_breakdown_sums_to_100 [sampleDay, sampleDay2] (by simp)

/-- C10: the key set of the weather breakdown is exactly the set of
weather categories occurring in at least one row (a category with zero
occurrences is absent, not reported as 0 percent), and every reported
percentage is strictly positive. -/
theorem weather_breakdown_keys (t : List DayRow) :
    (∀ k : Nat, (∃ q : ℚ, (k, q) ∈ weather_breakdown t)
      ↔ (∃ r ∈ t, r.weathersit = k)) ∧
    (∀ (k : Nat) (q : ℚ), (k, q) ∈ weather_breakdown t → 0 < q) := by
  constructor
  · intro k
    constructor
    · rintro ⟨q, hq⟩
      rcases List.mem_map.mp hq with ⟨k', hk', heq⟩
      have hk'k : k' = k := congrArg Prod.fst heq
      subst hk'k
      rcases List.mem_map.mp (List.mem_dedup.mp hk') with ⟨r, hr, hrk⟩
      exact ⟨r, hr, hrk⟩
    · rintro ⟨r, hr, hk⟩
      refine ⟨((t.filter (fun x => decide (x.weathersit = k))).length : ℚ)
          / (t.length : ℚ) * 100,
        List.mem_map.mpr ⟨k, ?_, rfl⟩⟩
      exact List.mem_dedup.mpr (List.mem_map.mpr ⟨r, hr, hk⟩)
  · intro k q hq
    rcases List.mem_map.mp hq with ⟨k', hk', heq⟩
    have hqv : q = ((t.filter (fun x =>
        decide (x.weathersit = k'))).length : ℚ) / (t.length : ℚ) * 100 :=
      (congrArg Prod.snd heq).symm
    rcases List.mem_map.mp (List.mem_dedup.mp hk') with ⟨r, hr, hrk⟩
    have hcpos : 0 < (t.filter (fun x =>
        decide (x.weathersit = k'))).length :=
      List.length_pos.mpr (List.ne_nil_of_mem
        (List.mem_filter.mpr ⟨hr, by simpa using hrk⟩))
    have hnpos : 0 < t.length := List.length_pos.mpr (List.ne_nil_of_mem hr)
    rw [hqv]
    have h1 : (0 : ℚ) < ((t.filter (fun x =>
        decide (x.weathersit = k'))).length : ℚ) := by
      exact_mod_cast hcpos
    have h2 : (0 : ℚ) < (t.length : ℚ) := by exact_mod_cast hnpos
    have := div_pos h1 h2
    linarith

/-- C10 (witness): on a concrete one-row table the single weather category
is reported with a strictly positive percentage. -/
theorem weather_breakdown_keys_witness :
    (1, (100 : ℚ)) ∈ weather_breakdown [sampleDay] ∧ (0 : ℚ) < 100 := by
  have h : weather_breakdown [sampleDay] = [(1, (100 : ℚ))] := by
    norm_num [weather_breakdown, sampleDay]
  have hmem : (1, (100 : ℚ)) ∈ weather_breakdown [sampleDay] := by
    rw [h]
    exact List.mem_singleton.mpr rfl
  exact ⟨hmem, (weather_breakdown_keys [sampleDay]).2 1 100 hmem⟩

theorem sum_cnt_split (t : List DayRow)
    (h : ∀ r ∈ t, r.cnt = r.casual + r.registered) :
    total_rentals t = total_casual t + total_registered t := by
  induction t with
  | nil => rfl
  | cons r t ih =>
    unfold total_rentals total_casual total_registered at *
    simp only [List.map_cons, List.sum_cons]
    rw [h r (List.mem_cons_self r t),
      ih (fun x hx => h x (List.mem_cons_of_mem r hx))]
    omega

/-- C9: for every date range the three displayed summary totals satisfy
Total Rentals = Casual Rentals + Registered Rentals, given the per-row
invariant cnt = casual + registered. -/
theorem totals_additive (t : List DayRow) (s e : Int)
    (h : ∀ r ∈ t, r.cnt = r.casual + r.registered) :
    total_rentals (filterDays t s e)
      = total_casual (filterDays t s e)
        + total_registered (filterDays t s e) :=
  sum_cnt_split _ (fun r hr => h r (List.mem_filter.mp hr).1)

/-- C9 (witness): the three totals on a concrete filtered table. -/
theorem totals_additive_witness :
    total_rentals (filterDays [sampleDay, sampleDay2] 0 100)
      = total_casual (filterDays [sampleDay, sampleDay2] 0 100)
        + total_registered (filterDays [sampleDay, sampleDay2] 0 100) :=
  totals_additive [sampleDay, sampleDay2] 0 100 (by decide)

/-- The original (loaded) fields of a daily row: every column except the
derived month column. -/
def originalDayFields (r : DayRow) :
    Int × Nat × Nat × ℚ × ℚ × ℚ × Nat × Nat × Nat :=
  (r.dteday, r.season, r.weathersit, r.temp, r.hum, r.windspeed,
    r.casual, r.registered, r.cnt)

/-- The original (loaded) fields of an hourly row: every column except the
derived hour_binned column. -/
def originalHourFields (r : HourRow) :
    Int × Nat × Nat × Nat × Nat × Nat × Nat :=
  (r.dteday, r.hr, r.workingday, r.weathersit, r.casual, r.registered,
    r.cnt)

/-- The two tables loaded at startup, dashboard.py lines 14-19: the
module-level state that every section of the script reads. -/
structure DashState where
  days : List DayRow
  hours : List HourRow

/-- Weekday versus weekend totals, dashboard.py lines 164-165: group the
hourly table by the workingday flag and sum cnt (line 165 then relabels
the flag values 0/1 to Weekend/Weekday on the aggregate result table,
not on the input table). -/
def workingday_trend (t : List HourRow) : List (Nat × Nat) :=
  groupBy (fun r => r.workingday) (fun r => r.cnt) t

/-- The weather columns selected at dashboard.py line 126 for the
correlation heatmap and the scatter plots: temp, hum, windspeed,
weathersit and cnt. -/
def weather_data (t : List DayRow) : List (ℚ × ℚ × ℚ × ℚ × ℚ) :=
  t.map (fun r =>
    (r.temp, r.hum, r.windspeed, (r.weathersit : ℚ), (r.cnt : ℚ)))

/-- Mean rentals per hour category, dashboard.py line 191: group the
hourly table by the derived hour_binned column and take the means of cnt,
casual and registered.  The column is categorical, so pandas lists all
four categories; an empty category's means are NaN there, modelled by the
junk value 0 that meanQ yields on the empty list. -/
def binned_data (t : List HourRow) : List (HourBin × (ℚ × ℚ × ℚ)) :=
  [HourBin.night, HourBin.morning, HourBin.afternoon, HourBin.evening].map
    (fun b =>
      let g := t.filter (fun r => decide (r.hourBinned = some (some b)))
      (b, (meanQ (g.map (fun r => (r.cnt : ℚ))),
           meanQ (g.map (fun r => (r.casual : ℚ))),
           meanQ (g.map (fun r => (r.registered : ℚ))))))

/-- The Introduction and General Statistics section, dashboard.py lines
30-116: filter both tables by the chosen date range into local copies,
compute the three summary totals, the monthly or the weekly trend chart
(the derived month column and the date index are set on the local
filtered copy only), the hourly averages and the weather breakdown.  No
loaded table is reassigned or written through. -/
def run_introduction (s : DashState) (startD endD : Int) (monthly : Bool) :
    DashState × (Nat × Nat × Nat)
      × (List (Option (Int × Nat) × Nat) ⊕ List (Int × Nat))
      × List (Nat × ℚ) × List (Nat × ℚ) :=
  let fd := filterDays s.days startD endD
  let fh := filterHours s.hours startD endD
  (s, (total_rentals fd, total_casual fd, total_registered fd),
    (if monthly then Sum.inl (rentals_by_month fd)
      else Sum.inr (rentals_by_week fd)),
    average_rentals_by_hour fh, weather_breakdown fd)

/-- The Weather Impact section, dashboard.py lines 119-154: reads the
unfiltered daily table to build the correlation heatmap and the three
scatter plots; writes nothing. -/
def run_weather_impact (s : DashState) :
    DashState × List (ℚ × ℚ × ℚ × ℚ × ℚ) :=
  (s, weather_data s.days)

/-- The Rental Patterns section, dashboard.py lines 157-177: groups the
unfiltered hourly table by the workingday flag; writes nothing. -/
def run_rental_patterns (s : DashState) :
    DashState × List (Nat × Nat) :=
  (s, workingday_trend s.hours)

/-- The Rentals per Hour Categories section, dashboard.py lines 180-206:
adds the derived hour_binned column to the loaded hourly table (the one
global write of the script) and groups by it. -/
def run_hour_categories (s : DashState) :
    DashState × List (HourBin × (ℚ × ℚ × ℚ)) :=
  let hours2 := addHourBinned s.hours
  ({ s with hours := hours2 }, binned_data hours2)

/-- C8: after load, no operation changes an existing column or row of the
two loaded tables.  The three read-only sections return the loaded state
unchanged; the hour-categories section changes nothing but the derived
hour_binned column; filtering returns rows of the original table
unchanged; and the derived-column additions preserve every original
field of every row. -/
theorem tables_immutable :
    (∀ (s : DashState) (a b : Int) (m : Bool),
        (run_introduction s a b m).1 = s) ∧
    (∀ s : DashState, (run_weather_impact s).1 = s) ∧
    (∀ s : DashState, (run_rental_patterns s).1 = s) ∧
    (∀ s : DashState, (run_hour_categories s).1.days = s.days ∧
        ((run_hour_categories s).1.hours).map originalHourFields
          = s.hours.map originalHourFields) ∧
    (∀ (t : List DayRow) (a b : Int) (r : DayRow),
        r ∈ filterDays t a b → r ∈ t) ∧
    (∀ (t : List HourRow) (a b : Int) (r : HourRow),
        r ∈ filterHours t a b → r ∈ t) ∧
    (∀ t : List DayRow,
        (addMonth t).map originalDayFields = t.map originalDayFields) ∧
    (∀ t : List HourRow,
        (addHourBinned t).map originalHourFields
          = t.map originalHourFields) := by
  refine ⟨fun s a b m => rfl, fun s => rfl, fun s => rfl,
    fun s => ⟨rfl, ?_⟩,
    fun t a b r hr => (List.mem_filter.mp hr).1,
    fun t a b r hr => (List.mem_filter.mp hr).1,
    fun t => ?_, fun t => ?_⟩
  · show ((addHourBinned s.hours).map originalHourFields)
      = s.hours.map originalHourFields
    rw [addHourBinned, List.map_map]
    rfl
  · rw [addMonth, List.map_map]
    rfl
  · rw [addHourBinned, List.map_map]
    rfl

/-- C8 (witness): a row surviving a concrete filter is a row of the
original table. -/
theorem tables_immutable_witness : sampleDay ∈ [sampleDay, sampleDay2] :=
  tables_immutable.2.2.2.2.1 [sampleDay, sampleDay2] 0 100 sampleDay
    (List.mem_filter.mpr ⟨List.mem_cons_self _ _, by decide⟩)

/-- Covariance-style numerator of Pearson correlation: the mean of the
products of deviations of two equal-length columns. -/
def covQ (xs ys : List ℚ) : ℚ :=
  ((xs.zip ys).map
    (fun p => (p.1 - meanQ xs) * (p.2 - meanQ ys))).sum / (xs.length : ℚ)

/-- Variance of a column: the covariance of the column with itself. -/
def varQ (xs : List ℚ) : ℚ := covQ xs xs

/-- Pearson correlation coefficient of two columns, the entrywise content
of DataFrame.corr() at dashboard.py line 127: covariance over the product
of the standard deviations.  The standard deviations need a real square
root, so the value lives in ℝ; a zero variance makes the float
computation produce NaN, modelled by none. -/
noncomputable def pearson (xs ys : List ℚ) : Option ℝ :=
  if varQ xs = 0 ∨ varQ ys = 0 then none
  else some ((covQ xs ys : ℝ)
    / (Real.sqrt (varQ xs : ℝ) * Real.sqrt (varQ ys : ℝ)))

/-- The five numeric columns selected for the correlation heatmap at
dashboard.py line 126: temp, hum, windspeed, weathersit, cnt. -/
def weatherColumn (t : List DayRow) : Fin 5 → List ℚ
  | ⟨0, _⟩ => t.map (fun r => r.temp)
  | ⟨1, _⟩ => t.map (fun r => r.hum)
  | ⟨2, _⟩ => t.map (fun r => r.windspeed)
  | ⟨3, _⟩ => t.map (fun r => (r.weathersit : ℚ))
  | ⟨4, _⟩ => t.map (fun r => (r.cnt : ℚ))

/-- The correlation matrix of dashboard.py line 127: the Pearson
coefficient of each pair of the five selected columns. -/
noncomputable def corr_matrix (t : List DayRow) (i j : Fin 5) : Option ℝ :=
  pearson (weatherColumn t i) (weatherColumn t j)

theorem zip_self (xs : List ℚ) : xs.zip xs = xs.map (fun x => (x, x)) := by
  induction xs with
  | nil => rfl
  | cons x xs ih => simp [List.zip_cons_cons, ih]

theorem zip_map_self (f : ℚ → ℚ) (xs : List ℚ) :
    xs.zip (xs.map f) = xs.map (fun x => (x, f x)) := by
  induction xs with
  | nil => rfl
  | cons x xs ih => simp [List.zip_cons_cons, ih]

theorem varQ_eq_sum_sq (xs : List ℚ) :
    varQ xs = (xs.map (fun x => (x - meanQ xs) ^ 2)).sum
      / (xs.length : ℚ) := by
  unfold varQ covQ
  rw [zip_self, List.map_map]
  congr 1
  refine congrArg List.sum (List.map_congr_left ?_)
  intro x _
  simp only [Function.comp]
  ring

theorem varQ_nonneg (xs : List ℚ) : 0 ≤ varQ xs := by
  rw [varQ_eq_sum_sq]
  apply div_nonneg
  · apply List.sum_nonneg
    intro x hx
    rcases List.mem_map.mp hx with ⟨y, _, hy⟩
    exact hy ▸ sq_nonneg (y - meanQ xs)
  · exact Nat.cast_nonneg _

theorem sum_affine (xs : List ℚ) (a b : ℚ) :
    (xs.map (fun x => a + b * x)).sum
      = (xs.length : ℚ) * a + b * xs.sum := by
  induction xs with
  | nil => simp
  | cons x xs ih =>
    simp only [List.map_cons, List.sum_cons, List.length_cons, ih]
    push_cast
    ring

theorem meanQ_affine (xs : List ℚ) (a b : ℚ) (h : xs ≠ []) :
    meanQ (xs.map (fun x => a + b * x)) = a + b * meanQ xs := by
  have hn : (xs.length : ℚ) ≠ 0 := by
    simpa using fun h0 => h (List.length_eq_zero.mp h0)
  unfold meanQ
  rw [List.length_map, sum_affine]
  field_simp
  ring

theorem covQ_affine (xs : List ℚ) (a b : ℚ) :
    covQ xs (xs.map (fun x => a + b * x)) = b * varQ xs := by
  rcases eq_or_ne xs [] with rfl | h
  · simp [covQ, varQ]
  · unfold covQ
    rw [zip_map_self, List.map_map, meanQ_affine xs a b h]
    have hpt : ∀ x ∈ xs,
        ((fun p : ℚ × ℚ => (p.1 - meanQ xs) * (p.2 - (a + b * meanQ xs)))
          ∘ (fun x => (x, a + b * x))) x
        = b * (x - meanQ xs) ^ 2 := by
      intro x _
      simp only [Function.comp]
      ring
    rw [List.map_congr_left hpt, List.sum_map_mul_left, mul_div_assoc,
      ← varQ_eq_sum_sq]

theorem varQ_affine (xs : List ℚ) (a b : ℚ) :
    varQ (xs.map (fun x => a + b * x)) = b ^ 2 * varQ xs := by
  rcases eq_or_ne xs [] with rfl | h
  · simp [varQ, covQ]
  · rw [varQ_eq_sum_sq, varQ_eq_sum_sq, List.map_map, List.length_map,
      meanQ_affine xs a b h]
    have hpt : ∀ x ∈ xs,
        ((fun y : ℚ => (y - (a + b * meanQ xs)) ^ 2)
          ∘ (fun x => a + b * x)) x
        = b ^ 2 * (x - meanQ xs) ^ 2 := by
      intro x _
      simp only [Function.comp]
      ring
    rw [List.map_congr_left hpt, List.sum_map_mul_left, mul_div_assoc]

theorem pearson_self (xs : List ℚ) (h : varQ xs ≠ 0) :
    pearson xs xs = some 1 := by
  unfold pearson
  rw [if_neg (fun hc => h (hc.elim id id))]
  have hv0 : (0 : ℝ) ≤ (varQ xs : ℝ) := by
    exact_mod_cast varQ_nonneg xs
  rw [Real.mul_self_sqrt hv0]
  have hne : (varQ xs : ℝ) ≠ 0 := by exact_mod_cast h
  exact congrArg some (div_self hne)

theorem covQ_comm (xs ys : List ℚ) (h : xs.length = ys.length) :
    covQ xs ys = covQ ys xs := by
  unfold covQ
  rw [h]
  congr 1
  rw [← List.zip_swap xs ys, List.map_map]
  refine congrArg List.sum (List.map_congr_left ?_)
  intro p _
  simp only [Function.comp, Prod.fst_swap, Prod.snd_swap]
  ring

theorem pearson_comm (xs ys : List ℚ) (h : xs.length = ys.length) :
    pearson xs ys = pearson ys xs := by
  unfold pearson
  by_cases h1 : varQ xs = 0 <;> by_cases h2 : varQ ys = 0
  · rw [if_pos (Or.inl h1), if_pos (Or.inr h1)]
  · rw [if_pos (Or.inl h1), if_pos (Or.inr h1)]
  · rw [if_pos (Or.inr h2), if_pos (Or.inl h2)]
  · rw [if_neg (not_or.mpr ⟨h1, h2⟩), if_neg (not_or.mpr ⟨h2, h1⟩),
      covQ_comm xs ys h, mul_comm]

theorem pearson_affine (xs : List ℚ) (a b : ℚ) (hb : b < 0)
    (hv : varQ xs ≠ 0) :
    pearson xs (xs.map (fun x => a + b * x)) = some (-1) := by
  have hb0 : b ≠ 0 := ne_of_lt hb
  have hyv : varQ (xs.map (fun x => a + b * x)) = b ^ 2 * varQ xs :=
    varQ_affine xs a b
  have hyv0 : varQ (xs.map (fun x => a + b * x)) ≠ 0 := by
    rw [hyv]
    exact mul_ne_zero (pow_ne_zero 2 hb0) hv
  unfold pearson
  rw [if_neg (not_or.mpr ⟨hv, hyv0⟩), covQ_affine xs a b, hyv]
  have hvpos : (0 : ℝ) < (varQ xs : ℝ) := by
    rcases lt_or_eq_of_le (varQ_nonneg xs) with h | h
    · exact_mod_cast h
    · exact absurd h.symm hv
  have hbR : (b : ℝ) < 0 := by exact_mod_cast hb
  have hcast1 : ((b * varQ xs : ℚ) : ℝ) = (b : ℝ) * (varQ xs : ℝ) := by
    push_cast
    ring
  have hcast2 : ((b ^ 2 * varQ xs : ℚ) : ℝ)
      = ((b : ℝ)) ^ 2 * (varQ xs : ℝ) := by
    push_cast
    ring
  rw [hcast1, hcast2, Real.sqrt_mul (sq_nonneg ((b : ℝ))),
    Real.sqrt_sq_eq_abs, abs_of_neg hbR]
  have hsq : Real.sqrt (varQ xs : ℝ) * Real.sqrt (varQ xs : ℝ)
      = (varQ xs : ℝ) := Real.mul_self_sqrt hvpos.le
  have hden : Real.sqrt (varQ xs : ℝ)
      * (-(b : ℝ) * Real.sqrt (varQ xs : ℝ))
      = -(b : ℝ) * (varQ xs : ℝ) := by
    calc Real.sqrt (varQ xs : ℝ)
        * (-(b : ℝ) * Real.sqrt (varQ xs : ℝ))
        = -(b : ℝ) * (Real.sqrt (varQ xs : ℝ)
            * Real.sqrt (varQ xs : ℝ)) := by ring
      _ = -(b : ℝ) * (varQ xs : ℝ) := by rw [hsq]
  rw [hden]
  have hne : -(b : ℝ) * (varQ xs : ℝ) ≠ 0 :=
    mul_ne_zero (by linarith) (ne_of_gt hvpos)
  refine congrArg some ?_
  rw [div_eq_iff hne]
  ring

theorem weatherColumn_length (t : List DayRow) (i : Fin 5) :
    (weatherColumn t i).length = t.length := by
  fin_cases i <;> simp [weatherColumn]

/-- C6 (counterexample): the claim that every diagonal entry of the
correlation matrix equals 1.0 fails on a table with a single row: every
column then has zero variance, the float Pearson computation divides 0 by
0, and the diagonal entry is NaN (modelled none), not 1.0. -/
theorem corr_matrix_diag_claim_false :
    corr_matrix [sampleDay] 0 0 ≠ some 1 := by
  have hv : varQ (weatherColumn [sampleDay] 0) = 0 := by
    norm_num [weatherColumn, varQ, covQ, meanQ, sampleDay]
  unfold corr_matrix pearson
  rw [if_pos (Or.inl hv)]
  simp

/-- C6 (amended): the correlation matrix is symmetric and each entry is
the pairwise Pearson coefficient of the two selected columns; a diagonal
entry equals 1.0 whenever its field has nonzero variance (a constant
field makes the entry NaN instead); and two perfectly anti-correlated
fields of nonzero variance yield the off-diagonal entry -1.0. -/
theorem corr_matrix_spec (t : List DayRow) (i j : Fin 5) :
    corr_matrix t i j = corr_matrix t j i ∧
    corr_matrix t i j = pearson (weatherColumn t i) (weatherColumn t j) ∧
    (varQ (weatherColumn t i) ≠ 0 → corr_matrix t i i = some 1) ∧
    (∀ a b : ℚ, b < 0 → varQ (weatherColumn t i) ≠ 0 →
      weatherColumn t j = (weatherColumn t i).map (fun x => a + b * x) →
      corr_matrix t i j = some (-1)) := by
  refine ⟨?_, rfl, fun hv => pearson_self _ hv, ?_⟩
  · exact pearson_comm _ _
      (by rw [weatherColumn_length, weatherColumn_length])
  · intro a b hb hv hj
    unfold corr_matrix
    rw [hj]
    exact pearson_affine _ a b hb hv

/-- A concrete daily row whose temp and hum are perfectly
anti-correlated with the next row's. -/
def corrDayA : DayRow :=
  { dteday := 0, season := 1, weathersit := 1, temp := 0, hum := 1,
    windspeed := 0, casual := 0, registered := 0, cnt := 0 }

/-- The partner row of corrDayA: temp and hum swapped. -/
def corrDayB : DayRow :=
  { dteday := 1, season := 1, weathersit := 1, temp := 1, hum := 0,
    windspeed := 0, casual := 0, registered := 0, cnt := 0 }

/-- C6 (witness): on a concrete two-row table the temp diagonal entry is
1.0 and the perfectly anti-correlated temp/hum pair gives -1.0. -/
theorem corr_matrix_spec_witness :
    corr_matrix [corrDayA, corrDayB] 0 0 = some 1 ∧
    corr_matrix [corrDayA, corrDayB] 0 1 = some (-1) := by
  have hv : varQ (weatherColumn [corrDayA, corrDayB] 0) ≠ 0 := by
    norm_num [weatherColumn, varQ, covQ, meanQ, corrDayA, corrDayB]
  constructor
  · exact (corr_matrix_spec [corrDayA, corrDayB] 0 0).2.2.1 hv
  · refine (corr_matrix_spec [corrDayA, corrDayB] 0 1).2.2.2 1 (-1)
      (by norm_num) hv ?_
    norm_num [weatherColumn, corrDayA, corrDayB]

end Dashboard
